import Mathlib

/-!
Verification of the RAJA team/thread launch and CUDA forall substrate.

Shallow embedding of:
* `RAJA/policy/cuda/forall.hpp` — `getGridDim`, the strided kernel
  `forall_cuda_kernel`, and the `forall(cuda_exec<BlockSize, Async>, ...)`
  wrapper (modelled as an event trace);
* `RAJA/pattern/teams/teams_core.hpp` — `Teams`, `Threads`, `Lanes`,
  `Resources`, `LaunchContext`, `launch`, `teamSync`, and the Apollo
  policy-index multiplexer `KernelPolicyGeneratorSingle`;
* `RAJA/forall_omp_any.hxx` — `forall_sum` over an index range and the
  hybrid index-set segment dispatcher.
-/

/-- CUDA dim3: three extents, as used by `getGridDim(size_t len, dim3 blockDim)`. -/
structure Dim3 where
  x : Nat
  y : Nat
  z : Nat
deriving DecidableEq, Repr

/-- Embedding of `RAJA::cuda::impl::getGridDim` (forall.hpp lines 95-110).
The hardware query `cudaDeviceGetAttribute(..., MultiProcessorCount, ...)` and
the macro `MAX_THREADS_PER_SM` are passed as parameters `num_sm` and
`maxThreadsPerSM`.  All arithmetic is on `size_t` values, modelled as `Nat`. -/
def getGridDim (len : Nat) (blockDim : Dim3) (num_sm maxThreadsPerSM : Nat) : Nat :=
  let block_size := blockDim.x * blockDim.y * blockDim.z
  let max_concurrent_blocks := num_sm * (maxThreadsPerSM / block_size)
  let gridSizeMax := (len + block_size - 1) / block_size
  min gridSizeMax max_concurrent_blocks

/-- The formulation of the grid-size result written in the specification
(section 4.2): result = min(ceil(workLength / groupSize),
computeUnits * floor(perUnitThreadLimit / groupSize)), with the ceiling
expressed through floor division and a remainder test. -/
def computeGridSizeSpec (workLength groupSize computeUnits perUnitThreadLimit : Nat) : Nat :=
  min (workLength / groupSize + if workLength % groupSize = 0 then 0 else 1)
      (computeUnits * (perUnitThreadLimit / groupSize))

lemma add_pred_div (a b : Nat) (hb : 0 < b) :
    (a + b - 1) / b = a / b + (if a % b = 0 then 0 else 1) := by
  have hqr : b * (a / b) + a % b = a := Nat.div_add_mod a b
  have hrb : a % b < b := Nat.mod_lt a hb
  by_cases h0 : a % b = 0
  · have h1 : a + b - 1 = b * (a / b) + (b - 1) := by omega
    have h2 : (b - 1) / b = 0 := Nat.div_eq_of_lt (by omega)
    rw [h1, Nat.mul_add_div hb, h2, if_pos h0]
  · have hms : b * (a / b + 1) = b * (a / b) + b := Nat.mul_succ b (a / b)
    have h1 : a + b - 1 = b * (a / b + 1) + (a % b - 1) := by omega
    have h2 : (a % b - 1) / b = 0 := Nat.div_eq_of_lt (by omega)
    rw [h1, Nat.mul_add_div hb, h2, if_neg h0]

/-- C2 (amended): for every positive work length and block shape with positive
product, `getGridDim` returns the spec formula
min(ceil(N/groupSize), computeUnits * floor(limit/groupSize)); provided
additionally that at least one compute unit exists and the block-shape product
does not exceed the per-unit thread limit, the returned value lies in
[1, maxConcurrentGroups]; and on the concrete instance N=1000, block
(256,1,1), 20 compute units, limit 2048 it returns 4. -/
theorem getGridDim_meets_spec (len : Nat) (bd : Dim3) (num_sm maxT : Nat)
    (hlen : 0 < len) (hbs : 0 < bd.x * bd.y * bd.z) :
    getGridDim len bd num_sm maxT
        = computeGridSizeSpec len (bd.x * bd.y * bd.z) num_sm maxT ∧
    (0 < num_sm → bd.x * bd.y * bd.z ≤ maxT →
      1 ≤ getGridDim len bd num_sm maxT ∧
      getGridDim len bd num_sm maxT ≤ num_sm * (maxT / (bd.x * bd.y * bd.z))) ∧
    getGridDim 1000 ⟨256, 1, 1⟩ 20 2048 = 4 := by
  refine ⟨?_, fun hsm hfit => ⟨?_, ?_⟩, by decide⟩
  · simp only [getGridDim, computeGridSizeSpec]
    rw [add_pred_div len (bd.x * bd.y * bd.z) hbs]
  · simp only [getGridDim]
    rw [le_min_iff]
    constructor
    · rw [Nat.one_le_div_iff hbs]
      omega
    · have h1 : 1 ≤ maxT / (bd.x * bd.y * bd.z) :=
        (Nat.one_le_div_iff hbs).mpr hfit
      exact Nat.mul_pos hsm h1
  · simp only [getGridDim]
    exact min_le_right _ _

/-- Witness for C2 at the concrete scenario of the spec (section 8). -/
theorem getGridDim_meets_spec_witness :
    getGridDim 1000 ⟨256, 1, 1⟩ 20 2048
        = computeGridSizeSpec 1000 (256 * 1 * 1) 20 2048 ∧
    (0 < 20 → 256 * 1 * 1 ≤ 2048 →
      1 ≤ getGridDim 1000 ⟨256, 1, 1⟩ 20 2048 ∧
      getGridDim 1000 ⟨256, 1, 1⟩ 20 2048 ≤ 20 * (2048 / (256 * 1 * 1))) ∧
    getGridDim 1000 ⟨256, 1, 1⟩ 20 2048 = 4 :=
  getGridDim_meets_spec 1000 ⟨256, 1, 1⟩ 20 2048 (by decide) (by decide)

/-- Counterexample to C2 as stated: with block shape (4096,1,1) (positive
product) and hardware 20 compute units with per-unit thread limit 2048,
maxConcurrentGroups = 20 * floor(2048/4096) = 0, so the returned value is 0,
which does not lie in [1, maxConcurrentGroups]. -/
theorem getGridDim_range_counterexample :
    getGridDim 1000 ⟨4096, 1, 1⟩ 20 2048 = 0 ∧
    ¬ 1 ≤ getGridDim 1000 ⟨4096, 1, 1⟩ 20 2048 := by decide

/-- Observable events of the CUDA `forall` wrapper (forall.hpp lines 226-255):
the kernel issue, the `cuda::peekAtLastError()` check, the `cuda::launch(stream)`
call, and the `cuda::synchronize(stream)` completion wait. -/
inductive CudaEvent where
  | kernelLaunch (gridSize blockSize : Nat)
  | peekAtLastError
  | streamLaunch
  | synchronize
deriving DecidableEq, Repr

/-- Embedding of `RAJA::impl::forall(cuda_exec<BlockSize, Async>, iter, body)`
as the trace of device-interaction events it performs.  `len` is
`std::distance(begin, end)` (a signed quantity), `blockSize` the template
parameter `BlockSize`, `async` the template parameter `Async`.  The body runs
only under the guard `len > 0 && BlockSize > 0`. -/
def forall_cuda (len : Int) (blockSize : Nat) (async : Bool)
    (num_sm maxT : Nat) : List CudaEvent :=
  if 0 < len ∧ 0 < blockSize then
    let gridSize := getGridDim len.toNat ⟨blockSize, 1, 1⟩ num_sm maxT
    [CudaEvent.kernelLaunch gridSize blockSize, CudaEvent.peekAtLastError,
     CudaEvent.streamLaunch]
      ++ (if async then [] else [CudaEvent.synchronize])
  else []

/-- C3: with iteration length at most 0 or block size 0, the CUDA forall is a
complete no-op: it issues no kernel, performs no synchronization, and raises no
error — the event trace is empty. -/
theorem forall_cuda_degenerate_noop (len : Int) (blockSize : Nat) (async : Bool)
    (num_sm maxT : Nat) (h : len ≤ 0 ∨ blockSize = 0) :
    forall_cuda len blockSize async num_sm maxT = [] := by
  have hneg : ¬ (0 < len ∧ 0 < blockSize) := by
    rcases h with h | h
    · exact fun hc => absurd hc.1 (not_lt.mpr h)
    · exact fun hc => absurd hc.2 (by omega)
  simp only [forall_cuda, if_neg hneg]

/-- Witness for C3 at length 0, block size 256. -/
theorem forall_cuda_degenerate_noop_witness :
    forall_cuda 0 256 false 20 2048 = [] :=
  forall_cuda_degenerate_noop 0 256 false 20 2048 (Or.inl le_rfl)

/-- Counterexample to C6 as stated: an invocation with the Async flag false but
empty iteration space performs no stream synchronize at all (the whole launch
is skipped), so not every Async-false invocation blocks on device completion. -/
theorem forall_cuda_sync_counterexample :
    CudaEvent.synchronize ∉ forall_cuda 0 256 false 20 2048 := by decide

/-- C6 (amended): for every CUDA forall invocation that actually issues a
kernel (positive length and block size), with Async false the trace ends with a
stream synchronize before the call returns, with Async true no synchronize
occurs, and in both cases the launch-issue error check (`peekAtLastError`)
immediately follows the kernel issue. -/
theorem forall_cuda_async_semantics (len : Int) (blockSize num_sm maxT : Nat)
    (hlen : 0 < len) (hbs : 0 < blockSize) :
    forall_cuda len blockSize false num_sm maxT
        = [CudaEvent.kernelLaunch (getGridDim len.toNat ⟨blockSize, 1, 1⟩ num_sm maxT)
             blockSize,
           CudaEvent.peekAtLastError, CudaEvent.streamLaunch, CudaEvent.synchronize] ∧
    forall_cuda len blockSize true num_sm maxT
        = [CudaEvent.kernelLaunch (getGridDim len.toNat ⟨blockSize, 1, 1⟩ num_sm maxT)
             blockSize,
           CudaEvent.peekAtLastError, CudaEvent.streamLaunch] ∧
    CudaEvent.synchronize ∉ forall_cuda len blockSize true num_sm maxT := by
  refine ⟨?_, ?_, ?_⟩ <;> simp [forall_cuda, hlen, hbs]

/-- Witness for C6 at length 10, block size 4, one compute unit, limit 8. -/
theorem forall_cuda_async_semantics_witness :
    forall_cuda 10 4 false 1 8
        = [CudaEvent.kernelLaunch (getGridDim (Int.toNat 10) ⟨4, 1, 1⟩ 1 8) 4,
           CudaEvent.peekAtLastError, CudaEvent.streamLaunch, CudaEvent.synchronize] ∧
    forall_cuda 10 4 true 1 8
        = [CudaEvent.kernelLaunch (getGridDim (Int.toNat 10) ⟨4, 1, 1⟩ 1 8) 4,
           CudaEvent.peekAtLastError, CudaEvent.streamLaunch] ∧
    CudaEvent.synchronize ∉ forall_cuda 10 4 true 1 8 :=
  forall_cuda_async_semantics 10 4 1 8 (by decide) (by decide)

/-- Execution place (teams_core.hpp lines 49-54), with a device backend
enabled: HOST, DEVICE, and the sentinel NUM_PLACES. -/
inductive ExecPlace where
  | HOST
  | DEVICE
  | NUM_PLACES
deriving DecidableEq, Repr

/-- Teams geometry (teams_core.hpp lines 83-101): `int value[3]`, defaulting
to (1,1,1); the constructors fill missing trailing dimensions with 1. -/
structure Teams where
  x : Int := 1
  y : Int := 1
  z : Int := 1
deriving DecidableEq, Repr

/-- Threads geometry (teams_core.hpp lines 103-122), same shape as Teams. -/
structure Threads where
  x : Int := 1
  y : Int := 1
  z : Int := 1
deriving DecidableEq, Repr

/-- Lanes geometry (teams_core.hpp lines 124-134): one int, defaulting to 0. -/
structure Lanes where
  value : Int := 0
deriving DecidableEq, Repr

/-- Resource descriptor (teams_core.hpp lines 136-160). -/
structure Resources where
  teams : Teams := {}
  threads : Threads := {}
  lanes : Lanes := {}
deriving DecidableEq, Repr

/-- The two-argument constructor `Resources(Teams, Threads)` leaves `lanes`
default-initialized to 0. -/
def Resources.ofTeamsThreads (t : Teams) (th : Threads) : Resources :=
  { teams := t, threads := th, lanes := {} }

/-- LaunchContext (teams_core.hpp lines 163-181): the Resources base copied by
`LaunchContext(Resources const and ExecPlace)` plus the chosen place. -/
structure LaunchContext extends Resources where
  exec_place : ExecPlace
deriving DecidableEq, Repr

/-- Embedding of `LaunchContext::teamSync` as compiled for host code: the
`__syncthreads()` call is guarded by `RAJA_DEVICE_CODE`, so the host body is
empty.  Modelled as a transformer on the context and an arbitrary program
state, returning both unchanged. -/
def teamSync {σ : Type} (ctx : LaunchContext) (s : σ) : LaunchContext × σ :=
  (ctx, s)

/-- Repeated application of `teamSync`, to express calling it any number of
times. -/
def iterateTeamSync {σ : Type} : Nat → LaunchContext → σ → LaunchContext × σ
  | 0, ctx, s => (ctx, s)
  | n + 1, ctx, s =>
      let p := teamSync ctx s
      iterateTeamSync n p.1 p.2

/-- Modelled from the spec: the host and device top-level launch strategies
(`LaunchExecute<...>::exec`, declared in teams_core.hpp line 184 but
specialized outside the given sources).  Section 4.4: the strategy invokes
`body(context)` inside its execution environment; on host this is a direct
call. -/
def launchExecHost {α : Type} (ctx : LaunchContext) (body : LaunchContext → α) : α :=
  body ctx

/-- Modelled from the spec: device counterpart of `launchExecHost`; the body
observes the same context values (section 4.4). -/
def launchExecDevice {α : Type} (ctx : LaunchContext) (body : LaunchContext → α) : α :=
  body ctx

/-- Embedding of `RAJA::launch` (teams_core.hpp lines 188-206): switch on the
place, construct `LaunchContext(team_resources, place)` and run the matching
strategy; the default case does `throw "unknown launch place!"`, modelled as
`Except.error`. -/
def launch {α : Type} (place : ExecPlace) (team_resources : Resources)
    (body : LaunchContext → α) : Except String α :=
  match place with
  | ExecPlace.HOST =>
      Except.ok (launchExecHost ⟨team_resources, ExecPlace.HOST⟩ body)
  | ExecPlace.DEVICE =>
      Except.ok (launchExecDevice ⟨team_resources, ExecPlace.DEVICE⟩ body)
  | ExecPlace.NUM_PLACES => Except.error "unknown launch place!"

/-- C5: a place value that is neither HOST nor DEVICE hits the default case of
the switch and raises immediately; no launch strategy runs and no `Except.ok`
value is produced. -/
theorem launch_unknown_place_fatal {α : Type} (place : ExecPlace)
    (res : Resources) (body : LaunchContext → α)
    (h1 : place ≠ ExecPlace.HOST) (h2 : place ≠ ExecPlace.DEVICE) :
    launch place res body = Except.error "unknown launch place!" ∧
    ∀ a : α, launch place res body ≠ Except.ok a := by
  cases place with
  | HOST => exact absurd rfl h1
  | DEVICE => exact absurd rfl h2
  | NUM_PLACES => exact ⟨rfl, fun a h => by simp [launch] at h⟩

/-- Witness for C5 at NUM_PLACES with a body returning its context. -/
theorem launch_unknown_place_fatal_witness :
    launch ExecPlace.NUM_PLACES {} (fun ctx => ctx)
        = Except.error "unknown launch place!" ∧
    ∀ a : LaunchContext, launch ExecPlace.NUM_PLACES {} (fun ctx => ctx)
        ≠ Except.ok a :=
  launch_unknown_place_fatal ExecPlace.NUM_PLACES {} (fun ctx => ctx)
    (by decide) (by decide)

/-- C7: the resource descriptor round-trips through `launch` unchanged — a
body that reads the teams, threads, and lanes fields of its context observes
exactly the descriptor that was passed in, on host and on device; in
particular for Teams(2,3,4) and Threads(8,1,1). -/
theorem launch_roundtrips_resources (res : Resources) :
    launch ExecPlace.HOST res (fun ctx => (ctx.teams, ctx.threads, ctx.lanes))
        = Except.ok (res.teams, res.threads, res.lanes) ∧
    launch ExecPlace.DEVICE res (fun ctx => (ctx.teams, ctx.threads, ctx.lanes))
        = Except.ok (res.teams, res.threads, res.lanes) ∧
    launch ExecPlace.HOST
        (Resources.ofTeamsThreads ⟨2, 3, 4⟩ ⟨8, 1, 1⟩)
        (fun ctx => (ctx.teams, ctx.threads, ctx.lanes))
        = Except.ok (⟨2, 3, 4⟩, ⟨8, 1, 1⟩, ⟨0⟩) :=
  ⟨rfl, rfl, rfl⟩

/-- C8: on a host-place context, any number of `teamSync` calls leaves both the
context and every other piece of program state unchanged. -/
theorem teamSync_host_noop {σ : Type} (ctx : LaunchContext) (s : σ) (n : Nat)
    (hplace : ctx.exec_place = ExecPlace.HOST) :
    iterateTeamSync n ctx s = (ctx, s) := by
  induction n with
  | zero => rfl
  | succ n ih => simpa [iterateTeamSync, teamSync] using ih

/-- Witness for C8: five teamSync calls on a host context over a Nat state. -/
theorem teamSync_host_noop_witness :
    iterateTeamSync 5 ⟨{}, ExecPlace.HOST⟩ (42 : Nat)
        = (⟨{}, ExecPlace.HOST⟩, 42) :=
  teamSync_host_noop ⟨{}, ExecPlace.HOST⟩ 42 5 rfl

/-- Observable events of the Apollo policy-index multiplexer: the pre-launch
hook, the kernel execution of variant `k`, and the post-launch hook. -/
inductive MuxEvent where
  | preLaunch (k : Nat)
  | kernelRun (k : Nat)
  | postLaunch (k : Nat)
deriving DecidableEq, Repr

/-- Embedding of `KernelPolicyGeneratorSingle<idx, num_policies, ...>::generate`
(apollo_multi kernel header): if `policy == idx` run
`PreLaunchKernel::exec`, the kernel of variant `idx`, then
`PostLaunchKernel::exec`; otherwise recurse at `idx + 1`.  The specialization
at `idx == num_policies` does nothing.  The guard `num_policies ≤ idx` makes
the recursion well founded; starting from 0 only `idx = num_policies` reaches
it, exactly the terminal specialization. -/
def kernelPolicyGeneratorSingle (idx num_policies : Nat) (policy : Int) :
    List MuxEvent :=
  if num_policies ≤ idx then []
  else if policy = idx then
    [MuxEvent.preLaunch idx, MuxEvent.kernelRun idx, MuxEvent.postLaunch idx]
  else kernelPolicyGeneratorSingle (idx + 1) num_policies policy
termination_by num_policies - idx
decreasing_by omega

/-- Embedding of `KernelPolicyGenerator`: start the recursion at index 0. -/
def kernelPolicyGenerator (num_policies : Nat) (policy : Int) : List MuxEvent :=
  kernelPolicyGeneratorSingle 0 num_policies policy

lemma kernelPolicyGeneratorSingle_eq (num_policies : Nat) (policy : Int) :
    ∀ n idx : Nat, num_policies - idx ≤ n →
    kernelPolicyGeneratorSingle idx num_policies policy
      = if (idx : Int) ≤ policy ∧ policy < num_policies then
          [MuxEvent.preLaunch policy.toNat, MuxEvent.kernelRun policy.toNat,
           MuxEvent.postLaunch policy.toNat]
        else [] := by
  intro n
  induction n with
  | zero =>
      intro idx h
      rw [kernelPolicyGeneratorSingle, if_pos (by omega), if_neg (by omega)]
  | succ n ih =>
      intro idx h
      by_cases hge : num_policies ≤ idx
      · rw [kernelPolicyGeneratorSingle, if_pos hge, if_neg (by omega)]
      · rw [kernelPolicyGeneratorSingle, if_neg hge]
        by_cases hp : policy = (idx : Int)
        · rw [if_pos hp, if_pos (by omega)]
          have hto : policy.toNat = idx := by omega
          rw [hto]
        · rw [if_neg hp, ih (idx + 1) (by omega)]
          by_cases hin : ((idx : Int) + 1 ≤ policy ∧ policy < num_policies)
          · rw [if_pos (by push_cast; omega), if_pos (by omega)]
          · rw [if_neg (by push_cast; omega), if_neg (by omega)]

/-- C4: for a selector `k` in `[0, numPolicies)` the multiplexer executes
exactly the variant at index `k`, with its pre-launch hook before it and its
post-launch hook after it; for any selector outside that range, including
negative selectors, no variant and no hook executes. -/
theorem kernelPolicyGenerator_selects (num_policies : Nat) (k : Int) :
    (0 ≤ k ∧ k < num_policies →
      kernelPolicyGenerator num_policies k
        = [MuxEvent.preLaunch k.toNat, MuxEvent.kernelRun k.toNat,
           MuxEvent.postLaunch k.toNat]) ∧
    (k < 0 ∨ (num_policies : Int) ≤ k →
      kernelPolicyGenerator num_policies k = []) := by
  unfold kernelPolicyGenerator
  rw [kernelPolicyGeneratorSingle_eq num_policies k num_policies 0 (by omega)]
  constructor
  · intro hk
    rw [if_pos (by omega)]
  · intro hk
    rw [if_neg (by omega)]

/-- Witness for C4 with three policy variants: selector 1 runs exactly variant
1 with its hooks; selectors 5 and -2 run nothing. -/
theorem kernelPolicyGenerator_selects_witness :
    kernelPolicyGenerator 3 1
        = [MuxEvent.preLaunch (Int.toNat 1), MuxEvent.kernelRun (Int.toNat 1),
           MuxEvent.postLaunch (Int.toNat 1)] ∧
    kernelPolicyGenerator 3 5 = [] ∧
    kernelPolicyGenerator 3 (-2) = [] :=
  ⟨(kernelPolicyGenerator_selects 3 1).1 (by omega),
   (kernelPolicyGenerator_selects 3 5).2 (by omega),
   (kernelPolicyGenerator_selects 3 (-2)).2 (by omega)⟩

/-- The index range `[b, e)` iterated by `for (Index_type ii = begin; ii < end; ++ii)`. -/
def indexList (b e : Int) : List Int :=
  (List.range (e - b).toNat).map (fun k => b + k)

/-- Embedding of `forall_sum(omp_parallel_for_exec, begin, end, sum, loop_body)`
(forall_omp_any.hxx lines 217-242).  `nthreads` is `omp_get_max_threads()`,
`tid ii` the thread that the OpenMP schedule assigns to iteration `ii`.  The
temporaries `sum_tmp[i]` all start at 0; each iteration lets the body update
the slot of its thread through the passed pointer (modelled as the update
function `loop_body ii` applied to the current slot value); finally every
slot is added onto `*sum`.  Distinct iterations touch only their own thread
slot, so folding them in iteration order is behaviour-preserving. -/
def forall_sum (nthreads : Nat) (tid : Int → Nat) (b e : Int) (sum0 : Int)
    (loop_body : Int → Int → Int) : Int :=
  let sum_tmp := List.replicate nthreads (0 : Int)
  let final := (indexList b e).foldl
      (fun tmp ii => tmp.set (tid ii) (loop_body ii (tmp.getD (tid ii) 0))) sum_tmp
  sum0 + final.sum

lemma sum_set_int (l : List Int) : ∀ (n : Nat) (a : Int), n < l.length →
    (l.set n a).sum = l.sum - l.getD n 0 + a := by
  induction l with
  | nil => intro n a h; simp at h
  | cons x xs ih =>
      intro n a h
      cases n with
      | zero => simp [List.set]; ring
      | succ n =>
          simp only [List.set, List.sum_cons, List.getD_cons_succ]
          rw [ih n a (by simpa using h)]
          ring

lemma forall_sum_fold (nthreads : Nat) (tid : Int → Nat) (c : Int → Int)
    (ht : ∀ ii, tid ii < nthreads) :
    ∀ (L : List Int) (tmp : List Int), tmp.length = nthreads →
      (L.foldl (fun tmp ii => tmp.set (tid ii) (tmp.getD (tid ii) 0 + c ii)) tmp).sum
        = tmp.sum + (L.map c).sum := by
  intro L
  induction L with
  | nil => intro tmp _; simp
  | cons x xs ih =>
      intro tmp hlen
      simp only [List.foldl_cons, List.map_cons, List.sum_cons]
      rw [ih _ (by rw [List.length_set]; exact hlen)]
      rw [sum_set_int tmp (tid x) _ (by rw [hlen]; exact ht x)]
      ring

/-- C9: `forall_sum` accumulates into the output rather than overwriting it —
per-thread partial sums start at 0, so with a body that adds `c ii` to its
partial, the final output is the initial value plus the total of all
contributions; and on an empty range (begin at or past end) the output is left
unchanged for every body. -/
theorem forall_sum_accumulates (nthreads : Nat) (tid : Int → Nat) (b e : Int)
    (s0 : Int) (c : Int → Int) (body : Int → Int → Int)
    (ht : ∀ ii, tid ii < nthreads) :
    forall_sum nthreads tid b e s0 (fun ii v => v + c ii)
        = s0 + ((indexList b e).map c).sum ∧
    (e ≤ b → forall_sum nthreads tid b e s0 body = s0) := by
  constructor
  · simp only [forall_sum]
    rw [forall_sum_fold nthreads tid c ht (indexList b e)
          (List.replicate nthreads 0) (List.length_replicate nthreads 0)]
    simp [List.sum_replicate]
  · intro he
    have h0 : (e - b).toNat = 0 := by omega
    simp [forall_sum, indexList, h0, List.sum_replicate]

/-- Witness for C9: one thread, range [0, 3), initial output 5, body adding
the index; the result is 5 plus 0+1+2. -/
theorem forall_sum_accumulates_witness :
    forall_sum 1 (fun _ => 0) 0 3 5 (fun ii v => v + ii)
        = 5 + ((indexList 0 3).map (fun ii => ii)).sum ∧
    ((3 : Int) ≤ 0 → forall_sum 1 (fun _ => 0) 0 3 5 (fun ii v => v + 2 * ii) = 5) :=
  forall_sum_accumulates 1 (fun _ => 0) 0 3 5 (fun ii => ii)
    (fun ii v => v + 2 * ii) (fun _ => Nat.one_pos)

/-- A segment of a hybrid index set, identified by its `m_type` tag with the
payload of the index set object behind `m_segment`.  The tags are the three
the dispatcher names: `_Range_`, `_RangeStride_`, `_Unstructured_`. -/
inductive HybridSegment where
  | range (b e : Int)
  | rangeStride (b e s : Int)
  | unstructured (idx : List Int)
deriving DecidableEq, Repr

/-- Effect of the switch body of the hybrid dispatcher
(forall_omp_any.hxx lines 758-808) on a single segment, as the list of indices
the loop body is invoked on: `_Range_` runs the range forall (lines 69-79,
indices begin..end-1), `_Unstructured_` runs the indirection-array forall
(lines 539-550, the array in order); `_RangeStride_` is disabled by the
preprocessor and falls to the empty `default` case. -/
def forall_hybrid_segment (seg : HybridSegment) : List Int :=
  match seg with
  | HybridSegment.range b e => indexList b e
  | HybridSegment.rangeStride _ _ _ => []
  | HybridSegment.unstructured idx => idx

/-- Embedding of `forall(std::pair<omp_parallel_for_segit, SEG_EXEC_POLICY_T>,
HybridISet, loop_body)`: iterate over all segments, dispatching each through
the switch. -/
def forall_hybrid (segs : List HybridSegment) : List Int :=
  (segs.map forall_hybrid_segment).flatten

/-- Whether the segment type tag is one of the two the switch recognizes. -/
def isRecognized (seg : HybridSegment) : Bool :=
  match seg with
  | HybridSegment.range _ _ => true
  | HybridSegment.unstructured _ => true
  | HybridSegment.rangeStride _ _ _ => false

/-- C10: segments whose type tag is neither the range type nor the
unstructured type are silently skipped — they contribute no body invocations
and raise no error, so the effect of the hybrid forall is exactly the combined
effect on the recognized segments. -/
theorem forall_hybrid_skips_unrecognized (segs : List HybridSegment) :
    forall_hybrid segs = forall_hybrid (segs.filter isRecognized) ∧
    ∀ seg ∈ segs, isRecognized seg = false → forall_hybrid_segment seg = [] := by
  constructor
  · induction segs with
    | nil => rfl
    | cons seg rest ih =>
        cases hrec : isRecognized seg
        · cases seg with
          | range b e => simp [isRecognized] at hrec
          | unstructured idx => simp [isRecognized] at hrec
          | rangeStride b e s =>
              simpa [forall_hybrid, forall_hybrid_segment, List.filter, hrec]
                using ih
        · simpa [forall_hybrid, List.filter, hrec] using ih
  · intro seg _ hrec
    cases seg with
    | range b e => simp [isRecognized] at hrec
    | unstructured idx => simp [isRecognized] at hrec
    | rangeStride b e s => rfl

/-- Witness for C10 on a concrete hybrid set holding a range segment, a
range-stride segment, and an unstructured segment. -/
theorem forall_hybrid_skips_unrecognized_witness :
    forall_hybrid
        [HybridSegment.range 0 3, HybridSegment.rangeStride 0 10 2,
         HybridSegment.unstructured [7, 9]]
      = forall_hybrid
          ([HybridSegment.range 0 3, HybridSegment.rangeStride 0 10 2,
            HybridSegment.unstructured [7, 9]].filter isRecognized) ∧
    ∀ seg ∈ [HybridSegment.range 0 3, HybridSegment.rangeStride 0 10 2,
             HybridSegment.unstructured [7, 9]],
      isRecognized seg = false → forall_hybrid_segment seg = [] :=
  forall_hybrid_skips_unrecognized
    [HybridSegment.range 0 3, HybridSegment.rangeStride 0 10 2,
     HybridSegment.unstructured [7, 9]]

/-- Embedding of the strided loop of `forall_cuda_kernel` (forall.hpp lines
174-181): starting at index `ii`, visit every `stride`-th index below
`length`.  The conjunct `0 < stride` makes the recursion well founded; on
hardware the stride `blockDim.x * gridDim.x` is always positive, and for
positive stride the definition agrees with the source loop
`for (; ii < length; ii += gridThreads)` exactly. -/
def unitVisits (stride length ii : Nat) : List Nat :=
  if h : ii < length ∧ 0 < stride then
    ii :: unitVisits stride length (ii + stride)
  else []
termination_by length - ii
decreasing_by omega

/-- Embedding of `getGlobalIdx_1D_1D` (forall.hpp lines 119-124):
`blockIdx.x * blockDim.x + threadIdx.x`. -/
def getGlobalIdx_1D_1D (blockIdx blockDimx threadIdx : Nat) : Nat :=
  blockIdx * blockDimx + threadIdx

/-- Embedding of `getGlobalNumThreads_1D_1D` (forall.hpp lines 125-129):
`blockDim.x * gridDim.x`. -/
def getGlobalNumThreads_1D_1D (blockDimx gridDimx : Nat) : Nat :=
  blockDimx * gridDimx

/-- Embedding of `forall_cuda_kernel<BlockSize>(loop_body, idx, length)` as
executed by the unit `(blockIdx, threadIdx)` of a 1D grid of `gridDim` blocks
of `blockDim` threads: the loop body applied, in order, to each index of the
strided loop.  Instantiating `loop_body` with the identity records the indices
`ii` at which `body(idx[ii])` is invoked. -/
def forall_cuda_kernel {α : Type} (loop_body : Nat → α)
    (gridDim blockDim length blockIdx threadIdx : Nat) : List α :=
  (unitVisits (getGlobalNumThreads_1D_1D blockDim gridDim) length
      (getGlobalIdx_1D_1D blockIdx blockDim threadIdx)).map loop_body

lemma unitVisits_count (s L : Nat) (hs : 0 < s) :
    ∀ n ii i : Nat, L - ii ≤ n →
    (unitVisits s L ii).count i
      = if ii ≤ i ∧ i < L ∧ (i - ii) % s = 0 then 1 else 0 := by
  intro n
  induction n with
  | zero =>
      intro ii i h
      rw [unitVisits, dif_neg (by omega), List.count_nil, if_neg (by omega)]
  | succ n ih =>
      intro ii i h
      by_cases hlt : ii < L
      · rw [unitVisits, dif_pos ⟨hlt, hs⟩, List.count_cons,
            ih (ii + s) i (by omega)]
        simp only [beq_iff_eq]
        by_cases heq : i = ii
        · subst heq
          rw [if_neg (show ¬ (i + s ≤ i ∧ i < L ∧ (i - (i + s)) % s = 0) by omega),
              if_pos (show i ≤ i ∧ i < L ∧ (i - i) % s = 0 from
                ⟨le_refl i, hlt, by simp⟩)]
          simp
        · rw [if_neg (show ¬ ii = i from fun hc => heq hc.symm)]
          have hiff : (ii + s ≤ i ∧ i < L ∧ (i - (ii + s)) % s = 0)
              ↔ (ii ≤ i ∧ i < L ∧ (i - ii) % s = 0) := by
            constructor
            · rintro ⟨h1, h2, h3⟩
              refine ⟨by omega, h2, ?_⟩
              have hsplit : i - ii = (i - (ii + s)) + s := by omega
              rw [hsplit, Nat.add_mod_right]
              exact h3
            · rintro ⟨h1, h2, h3⟩
              have hdvd : s ∣ (i - ii) := Nat.dvd_of_mod_eq_zero h3
              have hpos : 0 < i - ii := by omega
              have hss : s ≤ i - ii := Nat.le_of_dvd hpos hdvd
              refine ⟨by omega, h2, ?_⟩
              have hsplit : i - ii = (i - (ii + s)) + s := by omega
              rw [hsplit, Nat.add_mod_right] at h3
              exact h3
          simp only [hiff]
          simp
      · rw [unitVisits, dif_neg (by omega), List.count_nil, if_neg (by omega)]

lemma exactly_one_unit (T L i : Nat) (hT : 0 < T) (hi : i < L) :
    ∑ m ∈ Finset.range T, (unitVisits T L m).count i = 1 := by
  have hkey : ∀ m ∈ Finset.range T,
      (unitVisits T L m).count i = if m = i % T then 1 else 0 := by
    intro m hm
    rw [Finset.mem_range] at hm
    rw [unitVisits_count T L hT L m i (by omega)]
    by_cases hc : m ≤ i ∧ i < L ∧ (i - m) % T = 0
    · rw [if_pos hc, if_pos ?_]
      obtain ⟨h1, _, h3⟩ := hc
      obtain ⟨k, hk⟩ := Nat.dvd_of_mod_eq_zero h3
      have hik : i = m + T * k := by omega
      rw [hik, Nat.add_mul_mod_self_left, Nat.mod_eq_of_lt hm]
    · rw [if_neg hc, if_neg ?_]
      intro hmeq
      apply hc
      subst hmeq
      refine ⟨Nat.mod_le i T, hi, ?_⟩
      have h4 : T * (i / T) + i % T = i := Nat.div_add_mod i T
      have h5 : i - i % T = T * (i / T) := by omega
      rw [h5, Nat.mul_mod_right]
  rw [Finset.sum_congr rfl hkey,
      Finset.sum_ite_eq' (Finset.range T) (i % T) (fun _ => 1),
      if_pos (Finset.mem_range.mpr (Nat.mod_lt i hT))]

lemma sum_range_add_fun (f : Nat → Nat) (p q : Nat) :
    ∑ m ∈ Finset.range (p + q), f m
      = ∑ m ∈ Finset.range p, f m + ∑ t ∈ Finset.range q, f (p + t) := by
  induction q with
  | zero => simp
  | succ q ih =>
      rw [Nat.add_succ, Finset.sum_range_succ, ih, Finset.sum_range_succ,
          add_assoc]

lemma sum_range_mul (f : Nat → Nat) (G B : Nat) :
    ∑ b ∈ Finset.range G, ∑ t ∈ Finset.range B, f (b * B + t)
      = ∑ m ∈ Finset.range (G * B), f m := by
  induction G with
  | zero => simp
  | succ G ih =>
      rw [Finset.sum_range_succ, ih, Nat.succ_mul, sum_range_add_fun]

lemma sum_range_mul_count (G B N i : Nat) :
    ∑ b ∈ Finset.range G, ∑ t ∈ Finset.range B,
        (unitVisits (B * G) N (b * B + t)).count i
      = ∑ m ∈ Finset.range (G * B), (unitVisits (B * G) N m).count i :=
  sum_range_mul (fun m => (unitVisits (B * G) N m).count i) G B

/-- C1: for every iteration length N and every 1D grid/block geometry with at
least one execution unit, the strided kernel invokes the loop body on the
element at index i for every i in [0, N) exactly once collectively across all
execution units — summed over all (blockIdx, threadIdx) pairs, the number of
visits of each in-range index is exactly one, however small the grid is. -/
theorem forall_cuda_kernel_covers_once (N G B i : Nat)
    (hGB : 0 < G * B) (hi : i < N) :
    ∑ blockIdx ∈ Finset.range G, ∑ threadIdx ∈ Finset.range B,
      (forall_cuda_kernel (fun j => j) G B N blockIdx threadIdx).count i = 1 := by
  have hmap : ∀ bI tI : Nat,
      forall_cuda_kernel (fun j => j) G B N bI tI
        = unitVisits (B * G) N (bI * B + tI) := by
    intro bI tI
    simp [forall_cuda_kernel, getGlobalNumThreads_1D_1D, getGlobalIdx_1D_1D,
      List.map_id']
  simp only [hmap]
  rw [sum_range_mul_count G B N i, Nat.mul_comm B G]
  exact exactly_one_unit (G * B) N i hGB hi

/-- Witness for C1: N = 5 indices, 2 blocks of 2 threads, index 3 is visited
exactly once in total. -/
theorem forall_cuda_kernel_covers_once_witness :
    ∑ blockIdx ∈ Finset.range 2, ∑ threadIdx ∈ Finset.range 2,
      (forall_cuda_kernel (fun j => j) 2 2 5 blockIdx threadIdx).count 3 = 1 :=
  forall_cuda_kernel_covers_once 5 2 2 3 (by decide) (by decide)
